import Mathlib

/-!
Verification of the cpk-tool-rs CPK archive reader.

Shallow embedding conventions:
* Byte buffers are `List Nat` (each element a byte value `< 256` in real runs;
  the operations are total on `Nat`).
* Machine integers are `Nat` (unsigned) or `Int` (the decompressor's `i32`
  indices), with `% 2 ^ 64` at the points where Rust `u64` addition may wrap.
* Fallible operations return `Except String α`; a Rust panic (index out of
  bounds, division by zero) is embedded as an `Except.error`.
* Strings read from archives are kept as raw byte lists.  The program decodes
  them as Shift-JIS, which acts as the identity on the ASCII bytes that every
  name compared by the program ("@UTF", "FileName", "TOC_HDR", ...) consists
  of, and no non-ASCII Shift-JIS sequence decodes to an ASCII string, so
  byte-list equality coincides with the program's string equality on every
  comparison it performs.
-/

/-- Byte of `d` at index `i`, `0` out of range (used only where in-range). -/
def byteAt (d : List Nat) (i : Nat) : Nat := d.getD i 0

/-- Big-endian 16-bit value at `p` (total helper). -/
def be16v (d : List Nat) (p : Nat) : Nat := byteAt d p * 256 + byteAt d (p + 1)

/-- Big-endian 32-bit value at `p` (total helper). -/
def be32v (d : List Nat) (p : Nat) : Nat := be16v d p * 65536 + be16v d (p + 2)

/-- Big-endian 64-bit value at `p` (total helper). -/
def be64v (d : List Nat) (p : Nat) : Nat := be32v d p * 4294967296 + be32v d (p + 4)

/-- Little-endian 32-bit value at `p` (total helper). -/
def le32v (d : List Nat) (p : Nat) : Nat :=
  byteAt d p + byteAt d (p + 1) * 256 + byteAt d (p + 2) * 65536 +
    byteAt d (p + 3) * 16777216

/-- Little-endian 64-bit value at `p` (total helper). -/
def le64v (d : List Nat) (p : Nat) : Nat := le32v d p + le32v d (p + 4) * 4294967296

/-- `EndianReader::read_u8`: one byte at `p`, EOF is an error. -/
def readU8 (d : List Nat) (p : Nat) : Except String Nat :=
  if p + 1 ≤ d.length then .ok (byteAt d p) else .error "unexpected EOF"

/-- `EndianReader::read_u16` big-endian. -/
def readBE16 (d : List Nat) (p : Nat) : Except String Nat :=
  if p + 2 ≤ d.length then .ok (be16v d p) else .error "unexpected EOF"

/-- `EndianReader::read_u32` big-endian. -/
def readBE32 (d : List Nat) (p : Nat) : Except String Nat :=
  if p + 4 ≤ d.length then .ok (be32v d p) else .error "unexpected EOF"

/-- `EndianReader::read_u64` big-endian. -/
def readBE64 (d : List Nat) (p : Nat) : Except String Nat :=
  if p + 8 ≤ d.length then .ok (be64v d p) else .error "unexpected EOF"

/-- `EndianReader::read_i32` little-endian, as the raw 32-bit pattern. -/
def readLE32 (d : List Nat) (p : Nat) : Except String Nat :=
  if p + 4 ≤ d.length then .ok (le32v d p) else .error "unexpected EOF"

/-- `EndianReader::read_i64` little-endian, as the raw 64-bit pattern. -/
def readLE64 (d : List Nat) (p : Nat) : Except String Nat :=
  if p + 8 ≤ d.length then .ok (le64v d p) else .error "unexpected EOF"

/-- `EndianReader::read_bytes(count)` starting at `p`: exactly `count` bytes or error. -/
def readBytesSlice (d : List Nat) (p count : Nat) : Except String (List Nat) :=
  if p + count ≤ d.length then .ok ((d.drop p).take count)
  else .error "unexpected EOF"

/-- ASCII bytes of a Lean string (all names the program compares are ASCII). -/
def ascii (s : String) : List Nat := s.toList.map Char.toNat

/-- `utf.rs` `CellValue`: a typed table cell.  The parser only ever builds the
unsigned integer variants, `float` (kept as its raw 32-bit pattern), `string`
(raw bytes), `data` and `none`; the signed variants exist in the source enum
but are never constructed. -/
inductive CellValue where
  | uint8 (v : Nat)
  | int8 (v : Int)
  | uint16 (v : Nat)
  | int16 (v : Int)
  | uint32 (v : Nat)
  | int32 (v : Int)
  | uint64 (v : Nat)
  | int64 (v : Int)
  | float (bits : Nat)
  | string (s : List Nat)
  | data (d : List Nat)
  | none
deriving DecidableEq, Repr

/-- `CellValue::as_u8`: width-strict accessor. -/
def CellValue.asU8 : CellValue → Option Nat
  | .uint8 v => some v
  | _ => Option.none

/-- `CellValue::as_u16`: width-strict accessor. -/
def CellValue.asU16 : CellValue → Option Nat
  | .uint16 v => some v
  | _ => Option.none

/-- `CellValue::as_u32`: width-strict accessor. -/
def CellValue.asU32 : CellValue → Option Nat
  | .uint32 v => some v
  | _ => Option.none

/-- `CellValue::as_u64`: width-strict accessor. -/
def CellValue.asU64 : CellValue → Option Nat
  | .uint64 v => some v
  | _ => Option.none

/-- `CellValue::as_string`. -/
def CellValue.asString : CellValue → Option (List Nat)
  | .string s => some s
  | _ => Option.none

/-- `CellValue::as_data`. -/
def CellValue.asData : CellValue → Option (List Nat)
  | .data d => some d
  | _ => Option.none

/-- `utf.rs` `Column`: a flags byte and a name. -/
structure Column where
  flags : Nat
  name : List Nat
deriving DecidableEq, Repr

/-- `utf.rs` `Cell`: a value plus the blob position where its raw value lives. -/
structure Cell where
  value : CellValue
  position : Nat
deriving DecidableEq, Repr

/-- `utf.rs` `Utf`: a parsed @UTF table. -/
structure Utf where
  table_size : Nat
  rows_offset : Nat
  strings_offset : Nat
  data_offset : Nat
  table_name : Nat
  num_columns : Nat
  row_length : Nat
  num_rows : Nat
  columns : List Column
  rows : List (List Cell)
deriving DecidableEq, Repr

/-- `Utf::get_column_data`: value of the cell at (row, first column named
`name`), or `none` if the column or row does not exist. -/
def getColumnData (u : Utf) (row : Nat) (name : List Nat) : Option CellValue :=
  match u.columns.findIdx? (fun c => c.name == name) with
  | Option.none => Option.none
  | some i =>
    match u.rows.get? row with
    | Option.none => Option.none
    | some r => (r.get? i).map Cell.value

/-- `Utf::get_column_position`. -/
def getColumnPosition (u : Utf) (row : Nat) (name : List Nat) : Option Nat :=
  match u.columns.findIdx? (fun c => c.name == name) with
  | Option.none => Option.none
  | some i =>
    match u.rows.get? row with
    | Option.none => Option.none
    | some r => (r.get? i).map Cell.position

/-- `Utf::get_column_data_or_default`: the cell value unless absent or
missing, in which case an all-ones sentinel of the width selected by
`defaultType` (0 → u8, 1 → u16, 2 → u32, 3 → u64, anything else → none). -/
def getColumnDataOrDefault (u : Utf) (row : Nat) (name : List Nat)
    (defaultType : Nat) : CellValue :=
  match getColumnData u row name with
  | some CellValue.none | Option.none =>
    match defaultType with
    | 0 => .uint8 0xFF
    | 1 => .uint16 0xFFFF
    | 2 => .uint32 0xFFFFFFFF
    | 3 => .uint64 0xFFFFFFFFFFFFFFFF
    | _ => .none
  | some v => v

/-- Keystream step of `Cpk::decrypt_utf`: XOR each byte with the low byte of
`m`, then `m ← m * 0x4115 mod 2^32`. -/
def decryptUtfGo (m : Nat) : List Nat → List Nat
  | [] => []
  | b :: rest => (b ^^^ m % 256) :: decryptUtfGo (m * 0x4115 % 4294967296) rest

/-- `Cpk::decrypt_utf`: the XOR keystream with initial state `0x655F`. -/
def decrypt_utf (input : List Nat) : List Nat := decryptUtfGo 0x655F input

/-- Byte-collection loop of `EndianReader::read_cstring` once the first byte
is known readable: bytes until NUL, EOF (break with accumulator) or the
length bound. -/
def readCStringOk (d : List Nat) : Nat → Nat → List Nat
  | _, 0 => []
  | pos, m + 1 =>
    if d.length ≤ pos then []
    else
      let b := byteAt d pos
      if b = 0 then [] else b :: readCStringOk d (pos + 1) m

/-- `EndianReader::read_cstring` read at position `pos` with bound `max`:
an immediate EOF with nothing accumulated is an error; EOF after at least one
byte yields the bytes read so far (unterminated string). -/
def readCString (d : List Nat) (pos max : Nat) : Except String (List Nat) :=
  if max = 0 then .ok []
  else if d.length ≤ pos then .error "unexpected EOF"
  else .ok (readCStringOk d pos max)

/-- Fallback column name `Column{index}` used when a name cannot be
resolved. -/
def colDefault (i : Nat) : List Nat := ascii "Column" ++ ascii (toString i)

/-- Column-descriptor loop of `Utf::read_utf`: for each column read a flags
byte (a zero flags byte means skip 3 bytes and re-read), then a 32-bit name
offset, resolving the name from the strings heap with the out-of-bounds /
empty / error fallbacks of the source.  Returns the columns and the cursor
after the descriptors. -/
def readColumns (d : List Nat) (stringsOff : Nat) :
    Nat → Nat → Nat → Except String (List Column × Nat)
  | 0, _, pos => .ok ([], pos)
  | n + 1, i, pos =>
    match readU8 d pos with
    | .error e => .error e
    | .ok flags0 =>
      let readFlags : Except String (Nat × Nat) :=
        if flags0 = 0 then
          match readU8 d (pos + 4) with
          | .error e => .error e
          | .ok f => .ok (f, pos + 5)
        else .ok (flags0, pos + 1)
      match readFlags with
      | .error e => .error e
      | .ok (flags, pos1) =>
        match readBE32 d pos1 with
        | .error e => .error e
        | .ok nameOff =>
          let name :=
            if d.length ≤ stringsOff + nameOff then colDefault i
            else
              match readCString d (stringsOff + nameOff) 255 with
              | .ok s => if s = [] then colDefault i else s
              | .error _ => colDefault i
          match readColumns d stringsOff n (i + 1) (pos1 + 4) with
          | .error e => .error e
          | .ok (rest, pos2) => .ok (⟨flags, name⟩ :: rest, pos2)

/-- Per-row cell loop of `Utf::read_utf`: dispatch on the storage nibble; the
non-per-row storages record the cursor and consume nothing; per-row cells read
a value of the column's type, resolving strings and blobs through the heaps.
Unknown storage or type is a fatal parse error. -/
def readRowCells (d : List Nat) (stringsOff dataOff : Nat) :
    List Column → Nat → Except String (List Cell)
  | [], _ => .ok []
  | c :: rest, pos =>
    let storage := c.flags &&& 0xF0
    if storage = 0x00 ∨ storage = 0x10 ∨ storage = 0x30 then
      match readRowCells d stringsOff dataOff rest pos with
      | .error e => .error e
      | .ok cs => .ok (⟨CellValue.none, pos⟩ :: cs)
    else if storage = 0x50 then
      let ty := c.flags &&& 0x0F
      let step : Except String (CellValue × Nat) :=
        if ty = 0x00 ∨ ty = 0x01 then
          match readU8 d pos with
          | .error e => .error e
          | .ok v => .ok (.uint8 v, pos + 1)
        else if ty = 0x02 ∨ ty = 0x03 then
          match readBE16 d pos with
          | .error e => .error e
          | .ok v => .ok (.uint16 v, pos + 2)
        else if ty = 0x04 ∨ ty = 0x05 then
          match readBE32 d pos with
          | .error e => .error e
          | .ok v => .ok (.uint32 v, pos + 4)
        else if ty = 0x06 ∨ ty = 0x07 then
          match readBE64 d pos with
          | .error e => .error e
          | .ok v => .ok (.uint64 v, pos + 8)
        else if ty = 0x08 then
          match readBE32 d pos with
          | .error e => .error e
          | .ok v => .ok (.float v, pos + 4)
        else if ty = 0x0A then
          match readBE32 d pos with
          | .error e => .error e
          | .ok strOff =>
            match readCString d (stringsOff + strOff) 255 with
            | .error e => .error e
            | .ok s => .ok (.string s, pos + 4)
        else if ty = 0x0B then
          match readBE32 d pos with
          | .error e => .error e
          | .ok dOff =>
            match readBE32 d (pos + 4) with
            | .error e => .error e
            | .ok dSize =>
              match readBytesSlice d (dataOff + dOff) dSize with
              | .error e => .error e
              | .ok bytes => .ok (.data bytes, pos + 8)
        else .error "Unsupported column type"
      match step with
      | .error e => .error e
      | .ok (v, pos1) =>
        match readRowCells d stringsOff dataOff rest pos1 with
        | .error e => .error e
        | .ok cs => .ok (⟨v, pos⟩ :: cs)
    else .error "Unknown storage flag"

/-- Row loop of `Utf::read_utf`: row `i` is read after seeking to
`rowsOff + i * rowLen`. -/
def readRows (d : List Nat) (stringsOff dataOff rowsOff rowLen : Nat)
    (cols : List Column) : Nat → Nat → Except String (List (List Cell))
  | 0, _ => .ok []
  | n + 1, i =>
    match readRowCells d stringsOff dataOff cols (rowsOff + i * rowLen) with
    | .error e => .error e
    | .ok cells =>
      match readRows d stringsOff dataOff rowsOff rowLen cols n (i + 1) with
      | .error e => .error e
      | .ok rest => .ok (cells :: rest)

/-- The `@UTF` signature bytes. -/
def atUtfSig : List Nat := ascii "@UTF"

/-- `Utf::read_utf` over a blob: check the signature, read the big-endian
header, rebase the three heap offsets by `+ 8`, validate them against the blob
length, then read columns and rows. -/
def readUtf (d : List Nat) : Except String Utf :=
  match readBytesSlice d 0 4 with
  | .error e => .error e
  | .ok sig =>
    if sig ≠ atUtfSig then .error "Invalid UTF signature"
    else
      match readBE32 d 4, readBE32 d 8, readBE32 d 12, readBE32 d 16 with
      | .ok tableSize, .ok rowsRel, .ok stringsRel, .ok dataRel =>
        let rowsOff := rowsRel + 8
        let stringsOff := stringsRel + 8
        let dataOff := dataRel + 8
        match readBE32 d 20, readBE16 d 24, readBE16 d 26, readBE32 d 28 with
        | .ok tableName, .ok numCols, .ok rowLen, .ok numRows =>
          if d.length < rowsOff then .error "Rows offset exceeds buffer size"
          else if d.length < stringsOff then .error "Strings offset exceeds buffer size"
          else if d.length < dataOff then .error "Data offset exceeds buffer size"
          else
            match readColumns d stringsOff numCols 0 32 with
            | .error e => .error e
            | .ok (cols, _) =>
              match readRows d stringsOff dataOff rowsOff rowLen cols numRows 0 with
              | .error e => .error e
              | .ok rows =>
                .ok ⟨tableSize, rowsOff, stringsOff, dataOff, tableName,
                  numCols, rowLen, numRows, cols, rows⟩
        | _, _, _, _ => .error "unexpected EOF"
      | _, _, _, _ => .error "unexpected EOF"

/-- `cpk.rs` `FileEntry`. -/
structure FileEntry where
  dir_name : Option (List Nat)
  file_name : List Nat
  file_size : Nat
  file_size_pos : Nat
  extract_size : Option Nat
  extract_size_pos : Option Nat
  file_offset : Nat
  file_offset_pos : Nat
  id : Option Nat
  user_string : Option (List Nat)
  local_dir : Option (List Nat)
  toc_name : List Nat
  file_type : List Nat
  encrypted : Bool
  offset : Nat
deriving DecidableEq, Repr

/-- `FileEntry::new`: the all-default entry. -/
def FileEntry.new : FileEntry :=
  ⟨Option.none, [], 0, 0, Option.none, Option.none, 0, 0, Option.none,
    Option.none, Option.none, [], [], false, 0⟩

instance : Inhabited FileEntry := ⟨FileEntry.new⟩

/-- `Cpk::read_utf_data` at file position `pos`: skip a 32-bit word, read the
little-endian 64-bit `utf_size` (negative is an error), bounds- and
policy-check it, read the packet, deobfuscate when it does not start with
`@UTF`, and require `@UTF` afterwards.  Returns the packet, the encrypted
flag and the position after the packet. -/
def readUtfData (file : List Nat) (pos : Nat) :
    Except String (List Nat × Bool × Nat) :=
  match readLE32 file pos with
  | .error e => .error e
  | .ok _ =>
    match readLE64 file (pos + 4) with
    | .error e => .error e
    | .ok utfSizeRaw =>
      if 2 ^ 63 ≤ utfSizeRaw then .error "Negative UTF size"
      else
        let utfSize := utfSizeRaw
        let cur := pos + 12
        if file.length < cur + utfSize then
          .error "UTF size exceeds remaining file size"
        else if 100000000 < utfSize then
          .error "UTF size seems unreasonably large"
        else
          match readBytesSlice file cur utfSize with
          | .error e => .error e
          | .ok packet0 =>
            let isEncrypted := ¬ (4 ≤ packet0.length ∧ packet0.take 4 = atUtfSig)
            let packet := if isEncrypted then decrypt_utf packet0 else packet0
            if packet.length < 4 ∨ packet.take 4 ≠ atUtfSig then
              .error "Invalid UTF signature after decryption"
            else .ok (packet, isEncrypted, cur + utfSize)

/-- The `f_toc_offset` of `Cpk::read_toc`: `toc_offset` clamped to `0x800`. -/
def fTocOffset (tocOffset : Nat) : Nat :=
  if 0x800 < tocOffset then 0x800 else tocOffset

/-- The `add_offset` of `Cpk::read_toc`: `f_toc_offset` when there is no
content offset, `content_offset` when there is no TOC offset, otherwise the
smaller of the two. -/
def addOffset (tocOffset contentOffset : Nat) : Nat :=
  if contentOffset = 0xFFFFFFFFFFFFFFFF then fTocOffset tocOffset
  else if tocOffset = 0xFFFFFFFFFFFFFFFF then contentOffset
  else if contentOffset < fTocOffset tocOffset then contentOffset
  else fTocOffset tocOffset

/-- One row of the entry-building loop of `Cpk::read_toc` (lines 398-476):
populate a fresh `FileEntry` from the row's cells, adding `add_offset` to the
64-bit `FileOffset` value (u64 addition, hence the `% 2 ^ 64`). -/
def buildTocEntry (addOff : Nat) (u : Utf) (rowIdx : Nat) : FileEntry :=
  let e0 := { FileEntry.new with
    toc_name := ascii "TOC", file_type := ascii "FILE", offset := addOff }
  let e1 :=
    match getColumnData u rowIdx (ascii "DirName") with
    | some v => { e0 with dir_name := v.asString }
    | Option.none => e0
  let e2 :=
    match getColumnData u rowIdx (ascii "FileName") with
    | some v => { e1 with file_name := v.asString.getD [] }
    | Option.none => e1
  let e3 :=
    match getColumnData u rowIdx (ascii "FileSize") with
    | some v => { e2 with
        file_size := v.asU64.getD 0,
        file_size_pos := (getColumnPosition u rowIdx (ascii "FileSize")).getD 0 }
    | Option.none => e2
  let e4 :=
    match getColumnData u rowIdx (ascii "ExtractSize") with
    | some v => { e3 with
        extract_size := v.asU64,
        extract_size_pos := getColumnPosition u rowIdx (ascii "ExtractSize") }
    | Option.none => e3
  let e5 :=
    match getColumnData u rowIdx (ascii "FileOffset") with
    | some v => { e4 with
        file_offset := (v.asU64.getD 0 + addOff) % 2 ^ 64,
        file_offset_pos := (getColumnPosition u rowIdx (ascii "FileOffset")).getD 0 }
    | Option.none => e4
  let e6 :=
    match getColumnData u rowIdx (ascii "ID") with
    | some v => { e5 with id := v.asU32 }
    | Option.none => e5
  match getColumnData u rowIdx (ascii "UserString") with
  | some v => { e6 with user_string := v.asString }
  | Option.none => e6

/-- The full entry list built by `Cpk::read_toc` from a parsed TOC table. -/
def buildTocEntries (tocOffset contentOffset : Nat) (u : Utf) : List FileEntry :=
  (List.range u.num_rows).map (buildTocEntry (addOffset tocOffset contentOffset) u)

/-- `Cpk::read_toc`: seek to the TOC offset, check the `TOC ` signature, read
the inner UTF, parse it and build the file entries.  Returns the packet (for
the `TOC_HDR` update), the encrypted flag, the entries and the position after
the packet. -/
def readToc (file : List Nat) (tocOffset contentOffset : Nat) :
    Except String (List Nat × Bool × List FileEntry × Nat) :=
  match readBytesSlice file tocOffset 4 with
  | .error e => .error e
  | .ok sig =>
    if sig ≠ ascii "TOC " then .error "Invalid TOC signature"
    else
      match readUtfData file (tocOffset + 4) with
      | .error e => .error e
      | .ok (packet, isEncrypted, pos1) =>
        match readUtf packet with
        | .error e => .error e
        | .ok u => .ok (packet, isEncrypted, buildTocEntries tocOffset contentOffset u, pos1)

/-- The ETOC `LocalDir` attachment loop of `Cpk::read_etoc`: the i-th entry
with `file_type == "FILE"` receives `LocalDir` from row i. -/
def attachEtocGo (u : Utf) : Nat → List FileEntry → List FileEntry
  | _, [] => []
  | i, e :: rest =>
    if e.file_type = ascii "FILE" then
      let e' :=
        match getColumnData u i (ascii "LocalDir") with
        | some v => { e with local_dir := v.asString }
        | Option.none => e
      e' :: attachEtocGo u (i + 1) rest
    else e :: attachEtocGo u i rest

/-- `Cpk::read_etoc`: seek, check `ETOC`, read and parse the inner UTF.
Returns the packet, the encrypted flag, the parsed table (used to update the
accumulated file table) and the position after the packet. -/
def readEtoc (file : List Nat) (etocOffset : Nat) :
    Except String (List Nat × Bool × Utf × Nat) :=
  match readBytesSlice file etocOffset 4 with
  | .error e => .error e
  | .ok sig =>
    if sig ≠ ascii "ETOC" then .error "Invalid ETOC signature"
    else
      match readUtfData file (etocOffset + 4) with
      | .error e => .error e
      | .ok (packet, isEncrypted, pos1) =>
        match readUtf packet with
        | .error e => .error e
        | .ok u => .ok (packet, isEncrypted, u, pos1)

/-- `format!("\x7b:04\x7d", id)`: the decimal digits of `id` left-padded with
zeros to width 4, as ASCII bytes. -/
def zeroPad4 (id : Nat) : List Nat :=
  let s := ascii (toString id)
  List.replicate (4 - s.length) 48 ++ s

/-- The `DataL` accumulation loop of `Cpk::read_itoc`: per row with an `ID`
cell, a `FileSize` cell inserts `(id, size)` (16-bit reads, defaulting 0)
into the size table and pushes the id; an `ExtractSize` cell inserts into the
extract-size table.  Tables are association lists where a later insert
shadows an earlier one (`HashMap::insert` semantics). -/
def itocDataLGo (u : Utf) :
    Nat → Nat → List (Nat × Nat) → List (Nat × Nat) → List Nat →
    List (Nat × Nat) × List (Nat × Nat) × List Nat
  | 0, _, st, et, ids => (st, et, ids)
  | n + 1, i, st, et, ids =>
    match getColumnData u i (ascii "ID") with
    | Option.none => itocDataLGo u n (i + 1) st et ids
    | some idv =>
      let p1 :=
        match getColumnData u i (ascii "FileSize") with
        | some fs => ((idv.asU16.getD 0, fs.asU16.getD 0) :: st, ids ++ [idv.asU16.getD 0])
        | Option.none => (st, ids)
      let et1 :=
        match getColumnData u i (ascii "ExtractSize") with
        | some es => (idv.asU16.getD 0, es.asU16.getD 0) :: et
        | Option.none => et
      itocDataLGo u n (i + 1) p1.1 et1 p1.2

/-- The `DataH` accumulation loop of `Cpk::read_itoc`: like `DataL` but with
32-bit size reads and an id pushed only when not already present. -/
def itocDataHGo (u : Utf) :
    Nat → Nat → List (Nat × Nat) → List (Nat × Nat) → List Nat →
    List (Nat × Nat) × List (Nat × Nat) × List Nat
  | 0, _, st, et, ids => (st, et, ids)
  | n + 1, i, st, et, ids =>
    match getColumnData u i (ascii "ID") with
    | Option.none => itocDataHGo u n (i + 1) st et ids
    | some idv =>
      let p1 :=
        match getColumnData u i (ascii "FileSize") with
        | some fs =>
          ((idv.asU16.getD 0, fs.asU32.getD 0) :: st,
            if ids.contains (idv.asU16.getD 0) then ids else ids ++ [idv.asU16.getD 0])
        | Option.none => (st, ids)
      let et1 :=
        match getColumnData u i (ascii "ExtractSize") with
        | some es => (idv.asU16.getD 0, es.asU32.getD 0) :: et
        | Option.none => et
      itocDataHGo u n (i + 1) p1.1 et1 p1.2

/-- The entry-creation loop of `Cpk::read_itoc` (lines 624-649): one entry per
id with `file_offset = base_offset`, sizes from the tables, then advance
`base_offset` by the file size rounded up to a multiple of `align` (u64
arithmetic; the `%` by a zero `align` is the division-by-zero panic). -/
def itocLoop (align : Nat) (sizeT extractT : List (Nat × Nat)) :
    List Nat → Nat → Except String (List FileEntry)
  | [], _ => .ok []
  | id :: rest, base =>
    let e := { FileEntry.new with
      toc_name := ascii "ITOC", file_type := ascii "FILE",
      file_name := zeroPad4 id, id := some id, file_offset := base,
      file_size := (sizeT.lookup id).getD 0,
      extract_size := extractT.lookup id }
    if align = 0 then .error "attempt to calculate the remainder with a divisor of zero"
    else
      let fs := e.file_size
      let base' :=
        if 0 < fs % align then (base + fs + (align - fs % align)) % 2 ^ 64
        else (base + fs) % 2 ^ 64
      match itocLoop align sizeT extractT rest base' with
      | .error err => .error err
      | .ok es => .ok (e :: es)

/-- `Cpk::read_itoc` from the sorted-id stage on: sort the ids ascending and
run the entry-creation loop starting at `content_offset`. -/
def itocEntries (contentOffset align : Nat) (sizeT extractT : List (Nat × Nat))
    (ids : List Nat) : Except String (List FileEntry) :=
  itocLoop align sizeT extractT (List.insertionSort (· ≤ ·) ids) contentOffset

/-- The `DataL`/`DataH` table-building stage of `Cpk::read_itoc`: each column
of row 0, when present and a blob, is itself an @UTF table (a parse failure is
fatal). -/
def readItocTables (u : Utf) :
    Except String (List (Nat × Nat) × List (Nat × Nat) × List Nat) :=
  let stepL : Except String (List (Nat × Nat) × List (Nat × Nat) × List Nat) :=
    match getColumnData u 0 (ascii "DataL") with
    | some dl =>
      match dl.asData with
      | some bytes =>
        match readUtf bytes with
        | .error e => .error e
        | .ok du => .ok (itocDataLGo du du.num_rows 0 [] [] [])
      | Option.none => .ok ([], [], [])
    | Option.none => .ok ([], [], [])
  match stepL with
  | .error e => .error e
  | .ok (st, et, ids) =>
    match getColumnData u 0 (ascii "DataH") with
    | some dh =>
      match dh.asData with
      | some bytes =>
        match readUtf bytes with
        | .error e => .error e
        | .ok du => .ok (itocDataHGo du du.num_rows 0 st et ids)
      | Option.none => .ok (st, et, ids)
    | Option.none => .ok (st, et, ids)

/-- `Cpk::read_itoc`: seek, check `ITOC`, read and parse the inner UTF, build
the id-keyed tables from `DataL`/`DataH` and create the entries. -/
def readItoc (file : List Nat) (itocOffset contentOffset align : Nat) :
    Except String (List Nat × Bool × List FileEntry × Nat) :=
  match readBytesSlice file itocOffset 4 with
  | .error e => .error e
  | .ok sig =>
    if sig ≠ ascii "ITOC" then .error "Invalid ITOC signature"
    else
      match readUtfData file (itocOffset + 4) with
      | .error e => .error e
      | .ok (packet, isEncrypted, pos1) =>
        match readUtf packet with
        | .error e => .error e
        | .ok u =>
          match readItocTables u with
          | .error e => .error e
          | .ok (st, et, ids) =>
            match itocEntries contentOffset align st et ids with
            | .error e => .error e
            | .ok entries => .ok (packet, isEncrypted, entries, pos1)

/-- `Cpk::read_gtoc`: verify the `GTOC` signature and return (parsing of the
section body is skipped by the program). -/
def readGtoc (file : List Nat) (gtocOffset : Nat) : Except String Unit :=
  match readBytesSlice file gtocOffset 4 with
  | .error e => .error e
  | .ok sig =>
    if sig ≠ ascii "GTOC" then .error "Invalid GTOC signature" else .ok ()

/-- The fields of `cpk.rs` `Cpk` populated by `read_cpk` that later stages
read (packet copies omitted). -/
structure Cpk where
  file_table : List FileEntry
  cpk_data : List (List Nat × CellValue)
  toc_offset : Nat
  etoc_offset : Nat
  itoc_offset : Nat
  gtoc_offset : Nat
  content_offset : Nat
deriving DecidableEq, Repr

/-- The `cpk_data` population loop of `Cpk::read_cpk`: column name → cell
value from row 0. -/
def buildCpkData (u : Utf) : List (List Nat × CellValue) :=
  match u.rows.head? with
  | Option.none => []
  | some row =>
    u.columns.enum.filterMap fun p =>
      (row.get? p.1).map fun cell => (p.2.name, cell.value)

/-- `Cpk::read_cpk` over the file bytes: check the `CPK ` signature, read the
header UTF (appending the `CPK_HDR` entry), extract the five offsets and
`Files`/`Align` from row 0, append the `CONTENT_OFFSET` entry when the
content offset is nonzero, then, for each sub-table offset that is not the
absent sentinel, append its header pseudo-entry and run its reader. -/
def readCpk (file : List Nat) : Except String Cpk :=
  match readBytesSlice file 0 4 with
  | .error e => .error e
  | .ok sig =>
    if sig ≠ ascii "CPK " then .error "Invalid CPK signature"
    else
      match readUtfData file 4 with
      | .error e => .error e
      | .ok (packet, isEncrypted, _pos1) =>
        let cpkEntry := { FileEntry.new with
          file_name := ascii "CPK_HDR", file_offset := 4 + 16,
          file_size := packet.length, encrypted := isEncrypted,
          file_type := ascii "CPK", toc_name := ascii "CPK" }
        match readUtf packet with
        | .error e => .error e
        | .ok u =>
          let cpkData := buildCpkData u
          let tocOffset :=
            ((getColumnDataOrDefault u 0 (ascii "TocOffset") 3).asU64).getD
              0xFFFFFFFFFFFFFFFF
          let etocOffset :=
            ((getColumnDataOrDefault u 0 (ascii "EtocOffset") 3).asU64).getD
              0xFFFFFFFFFFFFFFFF
          let itocOffset :=
            ((getColumnDataOrDefault u 0 (ascii "ItocOffset") 3).asU64).getD
              0xFFFFFFFFFFFFFFFF
          let gtocOffset :=
            ((getColumnDataOrDefault u 0 (ascii "GtocOffset") 3).asU64).getD
              0xFFFFFFFFFFFFFFFF
          let contentOffset :=
            ((getColumnDataOrDefault u 0 (ascii "ContentOffset") 3).asU64).getD 0
          let table1 :=
            if contentOffset ≠ 0 then
              [cpkEntry,
                { FileEntry.new with
                  file_name := ascii "CONTENT_OFFSET",
                  file_offset := contentOffset, file_type := ascii "CONTENT",
                  toc_name := ascii "CPK" }]
            else [cpkEntry]
          let _files :=
            ((getColumnDataOrDefault u 0 (ascii "Files") 2).asU32).getD 0
          let align :=
            ((getColumnDataOrDefault u 0 (ascii "Align") 1).asU16).getD 0x800
          let tocStage : Except String (List FileEntry) :=
            if tocOffset ≠ 0xFFFFFFFFFFFFFFFF then
              let hdr := { FileEntry.new with
                file_name := ascii "TOC_HDR",
                file_offset := tocOffset, file_type := ascii "HDR",
                toc_name := ascii "CPK" }
              match readToc file tocOffset contentOffset with
              | .error e => .error e
              | .ok (tpacket, tenc, tentries, _) =>
                .ok (table1 ++
                  [{ hdr with encrypted := tenc, file_size := tpacket.length }] ++
                  tentries)
            else .ok table1
          match tocStage with
          | .error e => .error e
          | .ok table2 =>
            let etocStage : Except String (List FileEntry) :=
              if etocOffset ≠ 0xFFFFFFFFFFFFFFFF then
                let hdr := { FileEntry.new with
                file_name := ascii "ETOC_HDR",
                  file_offset := etocOffset, file_type := ascii "HDR",
                  toc_name := ascii "CPK" }
                match readEtoc file etocOffset with
                | .error e => .error e
                | .ok (epacket, eenc, eu, _) =>
                  .ok (attachEtocGo eu 0 (table2 ++
                    [{ hdr with encrypted := eenc, file_size := epacket.length }]))
              else .ok table2
            match etocStage with
            | .error e => .error e
            | .ok table3 =>
              let itocStage : Except String (List FileEntry) :=
                if itocOffset ≠ 0xFFFFFFFFFFFFFFFF then
                  let hdr := { FileEntry.new with
                file_name := ascii "ITOC_HDR",
                    file_offset := itocOffset, file_type := ascii "HDR",
                    toc_name := ascii "CPK" }
                  match readItoc file itocOffset contentOffset align with
                  | .error e => .error e
                  | .ok (ipacket, ienc, ientries, _) =>
                    .ok (table3 ++
                      [{ hdr with encrypted := ienc, file_size := ipacket.length }] ++
                      ientries)
                else .ok table3
              match itocStage with
              | .error e => .error e
              | .ok table4 =>
                let gtocStage : Except String (List FileEntry) :=
                  if gtocOffset ≠ 0xFFFFFFFFFFFFFFFF then
                    let hdr := { FileEntry.new with
                file_name := ascii "GTOC_HDR",
                      file_offset := gtocOffset, file_type := ascii "HDR",
                      toc_name := ascii "CPK" }
                    match readGtoc file gtocOffset with
                    | .error e => .error e
                    | .ok _ => .ok (table4 ++ [hdr])
                  else .ok table4
                match gtocStage with
                | .error e => .error e
                | .ok table5 =>
                  .ok ⟨table5, cpkData, tocOffset, etocOffset, itocOffset,
                    gtocOffset, contentOffset⟩

/-- Bit-reader state of `compression.rs` `get_next_bits`: the backward input
index (`i32`, may reach -1), the 8-bit pool and the count of unserved bits in
the pool. -/
structure BitSt where
  off : Int
  pool : Nat
  left : Nat
deriving DecidableEq, Repr

/-- `get_next_bits`: serve bits MSB-first from the pool, loading one byte
from the current backward index (an index below 0 or past the end is a fatal
compression error) whenever the pool runs dry.  The accumulator is a `u16`
(`% 65536`).  One recursion step is one iteration of the source's while
loop; each iteration serves at least one bit, so running the loop with
`fuel = need` never reaches the fuel-exhaustion case (`getNextBitsGo_fuel`
below makes this exact). -/
def getNextBitsGo (input : List Nat) : Nat → Nat → BitSt → Nat → Except String (Nat × BitSt)
  | _, 0, s, acc => .ok (acc, s)
  | 0, _ + 1, _, _ => .error "unreachable: bit loop fuel exhausted"
  | fuel + 1, need + 1, s, acc =>
    if s.left = 0 then
      if s.off < 0 ∨ (input.length : Int) ≤ s.off then
        .error "Input offset out of bounds during bit reading"
      else
        let pool := byteAt input s.off.toNat
        let btr := if 8 > need + 1 then need + 1 else 8
        let mask := if 8 ≤ btr then 0xFF else 2 ^ btr - 1
        let extracted := (pool >>> (8 - btr)) &&& mask
        let acc' := (acc <<< btr) % 65536 ||| extracted
        getNextBitsGo input fuel (need + 1 - btr) ⟨s.off - 1, pool, 8 - btr⟩ acc'
    else
      let btr := if s.left > need + 1 then need + 1 else s.left
      let mask := if 8 ≤ btr then 0xFF else 2 ^ btr - 1
      let extracted := (s.pool >>> (s.left - btr)) &&& mask
      let acc' := (acc <<< btr) % 65536 ||| extracted
      getNextBitsGo input fuel (need + 1 - btr) ⟨s.off, s.pool, s.left - btr⟩ acc'

/-- `get_next_bits` with `bit_count = need`. -/
def getNextBits (input : List Nat) (need : Nat) (s : BitSt) :
    Except String (Nat × BitSt) :=
  getNextBitsGo input need need s 0

/-- Fuel irrelevance for the bit-reader loop: any fuel of at least `need`
iterations gives the same result, so `getNextBits` computes the limit of the
source's unbounded while loop. -/
theorem getNextBitsGo_fuel (input : List Nat) :
    ∀ fuel fuel' need s acc, need ≤ fuel → need ≤ fuel' →
      getNextBitsGo input fuel need s acc = getNextBitsGo input fuel' need s acc := by
  intro fuel
  induction fuel with
  | zero =>
    intro fuel' need s acc h h'
    interval_cases need
    cases fuel' <;> rfl
  | succ fuel ih =>
    intro fuel' need s acc h h'
    match need, fuel' with
    | 0, fuel' => cases fuel' <;> rfl
    | need + 1, 0 => omega
    | need + 1, fuel' + 1 =>
      simp only [getNextBitsGo]
      split
      · split
        · rfl
        · exact ih _ _ _ _ (by split <;> omega) (by split <;> omega)
      · exact ih _ _ _ _ (by split <;> omega) (by split <;> omega)

/-- The variable-length match-length loop of `decompress_crilayla`
(lines 114-127): for each level width, read that many bits (an EOF here is a
fatal error, unlike the control-bit reads), add them to the length, record
the level index, and stop early when the read is not all-ones.  Returns the
accumulated length, the last level index and the bit state. -/
def vleLoop (input : List Nat) :
    List Nat → Nat → Nat → Nat → BitSt → Except String (Nat × Nat × BitSt)
  | [], _, len, lvl, s => .ok (len, lvl, s)
  | nbits :: rest, idx, len, lvl, s =>
    match getNextBits input nbits s with
    | .error e => .error e
    | .ok (v, s') =>
      let len' := len + v
      if v ≠ 2 ^ nbits - 1 then .ok (len', idx, s')
      else
        match rest with
        | [] => .ok (len', idx, s')
        | _ => vleLoop input rest (idx + 1) len' lvl s'

/-- The 8-bit extension tail of the match length (lines 129-139).  The
guarding condition `vle_level == vle_lens.len()` can never hold (the level
index set by the loop is at most 3), so this is dead code in the program;
the fuel bound makes the embedding total. -/
def extraTail (input : List Nat) : Nat → Nat → BitSt → Except String (Nat × BitSt)
  | 0, _, _ => .error "unreachable: extension tail fuel exhausted"
  | fuel + 1, len, s =>
    match getNextBits input 8 s with
    | .error e => .error e
    | .ok (v, s') =>
      if v ≠ 255 then .ok (len + v, s') else extraTail input fuel (len + v) s'

/-- The back-reference copy loop of `decompress_crilayla` (lines 147-173):
copy up to `cnt` bytes, stopping early once `uncompressed_size` bytes are
out.  The write position is bounds-checked (a fatal error); a source
position outside the buffer writes a zero byte instead of failing.  Both
positions step downward. -/
def copyLoop (size : Nat) (outputEnd : Int) :
    Nat → Int → Nat → List Nat → Except String (Nat × List Nat)
  | 0, _, bytesOutput, buf => .ok (bytesOutput, buf)
  | n + 1, back, bytesOutput, buf =>
    if size ≤ bytesOutput then .ok (bytesOutput, buf)
    else
      let op : Int := outputEnd - bytesOutput
      if op < 0 ∨ (buf.length : Int) ≤ op then
        .error "Output position out of bounds"
      else
        let v := if back < 0 ∨ (buf.length : Int) ≤ back then 0
          else byteAt buf back.toNat
        copyLoop size outputEnd n (back - 1) (bytesOutput + 1)
          (buf.set op.toNat v)

/-- Decoder state of the main loop of `decompress_crilayla`: bit-reader
state, `bytes_output` and the output buffer. -/
structure DecSt where
  bits : BitSt
  bytesOutput : Nat
  buf : List Nat
deriving DecidableEq, Repr

/-- Main decoding loop of `decompress_crilayla` (lines 80-183), one fuel unit
per iteration.  While fewer than `size` bytes are out: a backward input index
below 0 ends the loop successfully, as does a failed control-bit or
offset-bits read; a set control bit decodes a back-reference (length reads
propagate errors) and runs the copy loop; a clear control bit reads a
literal byte and stores it at the write position (the unchecked indexing is
the bounds-check error case).  Every iteration increases `bytes_output`, so
`fuel = size + 1` never exhausts. -/
def decodeLoop (input : List Nat) (size : Nat) (outputEnd : Int) :
    Nat → DecSt → Except String DecSt
  | 0, _ => .error "unreachable: decode loop fuel exhausted"
  | fuel + 1, st =>
    if size ≤ st.bytesOutput then .ok st
    else if st.bits.off < 0 then .ok st
    else
      match getNextBits input 1 st.bits with
      | .error _ => .ok st
      | .ok (ctrl, b1) =>
        if 0 < ctrl then
          match getNextBits input 13 b1 with
          | .error _ => .ok st
          | .ok (offsetBits, b2) =>
            let back : Int := outputEnd - st.bytesOutput + offsetBits + 3
            match vleLoop input [2, 3, 5, 8] 0 3 0 b2 with
            | .error e => .error e
            | .ok (len0, lvl, b3) =>
              let tail : Except String (Nat × BitSt) :=
                if lvl = 4 then
                  extraTail input (8 * (b3.off.toNat + 1) + b3.left + 1) len0 b3
                else .ok (len0, b3)
              match tail with
              | .error e => .error e
              | .ok (len, b4) =>
                match copyLoop size outputEnd len back st.bytesOutput st.buf with
                | .error e => .error e
                | .ok (bo', buf') => decodeLoop input size outputEnd fuel ⟨b4, bo', buf'⟩
        else
          match getNextBits input 8 b1 with
          | .error e => .error e
          | .ok (byte, b2) =>
            let op : Int := outputEnd - st.bytesOutput
            if op < 0 ∨ (st.buf.length : Int) ≤ op then
              .error "index out of bounds"
            else
              decodeLoop input size outputEnd fuel
                ⟨b2, st.bytesOutput + 1, st.buf.set op.toNat byte⟩

/-- `decompress_crilayla`: header and bounds validation, allocation of the
`0x100 + uncompressed_size` buffer with the plaintext header copied to its
front, then the backward decoding loop starting at input index
`input.len() - 0x100 - 1` and output index `0x100 + uncompressed_size - 1`. -/
def decompress_crilayla (input : List Nat) : Except String (List Nat) :=
  if input.length < 16 then .error "Input too short for CRILAYLA"
  else
    let usizeRaw := le32v input 8
    let uhoRaw := le32v input 12
    if 2 ^ 31 ≤ uhoRaw ∨ 2 ^ 31 ≤ usizeRaw then
      .error "Invalid CRILAYLA header values"
    else
      let size := usizeRaw
      let uho := uhoRaw
      if 100000000 < size then .error "Uncompressed size unreasonably large"
      else if input.length < uho + 0x10 + 0x100 then .error "Invalid header offset"
      else
        let buf0 := (input.drop (uho + 0x10)).take 0x100 ++ List.replicate size 0
        if input.length < 0x100 + 1 then .error "Input too short for decompression"
        else
          let inputEnd := input.length - 0x100 - 1
          let outputEnd : Int := 0x100 + (size : Int) - 1
          match decodeLoop input size outputEnd (size + 1)
              ⟨⟨(inputEnd : Int), 0, 0⟩, 0, buf0⟩ with
          | .error e => .error e
          | .ok st => .ok st.buf

/-! ## Helper lemmas -/

/-- Setting an element at or beyond `n` leaves the first `n` elements alone. -/
theorem take_set_of_ge (l : List Nat) (i a n : Nat) (h : n ≤ i) :
    (l.set i a).take n = l.take n := by
  apply List.ext_getElem?
  intro j
  rw [List.getElem?_take, List.getElem?_take]
  split
  · rw [List.getElem?_set_ne (by omega)]
  · rfl

/-- The keystream XOR is an involution for any initial state: the keystream
depends only on the byte index. -/
theorem decryptUtfGo_involutive (m : Nat) (l : List Nat) :
    decryptUtfGo m (decryptUtfGo m l) = l := by
  induction l generalizing m with
  | nil => rfl
  | cons b rest ih =>
    simp only [decryptUtfGo, Nat.xor_cancel_right, List.cons.injEq]
    exact ⟨trivial, ih _⟩

/-! ## Claim theorems -/

/-- C5: the XOR keystream obfuscation (state `m = 0x655F`, multiplier
`t = 0x4115`, `output[i] = input[i] XOR (m AND 0xFF)`, `m` updated by 32-bit
wrapping multiplication) is self-inverse: applying `decrypt_utf` twice to any
byte sequence yields the sequence again. -/
theorem c5_decrypt_involutive (b : List Nat) : decrypt_utf (decrypt_utf b) = b :=
  decryptUtfGo_involutive 0x655F b

/-- The all-ones sentinel of the width selected by `k`, as the specification
describes it (0 → `0xFF`, 1 → `0xFFFF`, 2 → `0xFFFFFFFF`,
3 → `0xFFFFFFFFFFFFFFFF`). -/
def allOnesCell (k : Nat) : CellValue :=
  match k with
  | 0 => .uint8 0xFF
  | 1 => .uint16 0xFFFF
  | 2 => .uint32 0xFFFFFFFF
  | _ => .uint64 0xFFFFFFFFFFFFFFFF

/-- C8: for every parsed table, row, column name and default kind
`k ∈ 8/16/32/64-bit`, `get_column_data_or_default` returns the cell's value
when the named cell exists and is not the absent variant, and otherwise
returns the all-ones value of width `k`. -/
theorem c8_default_lookup (u : Utf) (row : Nat) (name : List Nat) (k : Nat)
    (hk : k < 4) :
    (∀ v, getColumnData u row name = some v → v ≠ CellValue.none →
      getColumnDataOrDefault u row name k = v) ∧
    ((getColumnData u row name = Option.none ∨
        getColumnData u row name = some CellValue.none) →
      getColumnDataOrDefault u row name k = allOnesCell k) := by
  constructor
  · intro v hv hne
    unfold getColumnDataOrDefault
    rw [hv]
    cases v <;> simp_all
  · intro hv
    unfold getColumnDataOrDefault
    rcases hv with hv | hv <;> rw [hv] <;>
      interval_cases k <;> rfl

/-- A concrete one-column, one-row table for the C8 witness. -/
def c8utf : Utf :=
  ⟨0, 0, 0, 0, 0, 1, 8, 1, [⟨0x56, ascii "ContentOffset"⟩],
    [[⟨CellValue.uint64 5, 32⟩]]⟩

/-- Witness for C8 at a concrete table: the present 64-bit cell is returned
for kind 3, and a missing column yields the 64-bit all-ones sentinel. -/
theorem c8_witness :
    (3 : Nat) < 4 ∧
    getColumnDataOrDefault c8utf 0 (ascii "ContentOffset") 3 = CellValue.uint64 5 ∧
    getColumnDataOrDefault c8utf 0 (ascii "TocOffset") 3 =
      CellValue.uint64 0xFFFFFFFFFFFFFFFF := by
  refine ⟨by omega, ?_, ?_⟩
  · exact (c8_default_lookup c8utf 0 (ascii "ContentOffset") 3 (by omega)).1
      (CellValue.uint64 5) (by rfl) (by simp)
  · exact (c8_default_lookup c8utf 0 (ascii "TocOffset") 3 (by omega)).2
      (Or.inl (by rfl))


/-- C7: for every blob on which `read_utf` succeeds, the stored rows, strings
and data offsets each equal the corresponding 32-bit big-endian relative
value from the header plus 8, and each is at most the blob's length. -/
theorem c7_utf_offsets (d : List Nat) (u : Utf) (h : readUtf d = .ok u) :
    u.rows_offset = be32v d 8 + 8 ∧
    u.strings_offset = be32v d 12 + 8 ∧
    u.data_offset = be32v d 16 + 8 ∧
    u.rows_offset ≤ d.length ∧
    u.strings_offset ≤ d.length ∧
    u.data_offset ≤ d.length := by
  unfold readUtf at h
  unfold readBE32 readBE16 at h
  repeat' split at h
  all_goals try simp_all
  repeat' split at h
  all_goals try simp_all
  subst h
  simp only [ite_eq_iff] at *
  simp_all

/-- A minimal valid @UTF blob (no columns, no rows) for the C7 witness. -/
def c7blob : List Nat :=
  [0x40, 0x55, 0x54, 0x46, 0, 0, 0, 24, 0, 0, 0, 24, 0, 0, 0, 24,
   0, 0, 0, 24, 0, 0, 0, 0, 0, 0, 0, 0, 0, 0, 0, 0]

/-- The table `read_utf` produces from `c7blob`. -/
def c7utf : Utf := ⟨24, 32, 32, 32, 0, 0, 0, 0, [], []⟩

/-- Witness for C7 at the concrete blob. -/
theorem c7_witness :
    readUtf c7blob = .ok c7utf ∧
    (c7utf.rows_offset = be32v c7blob 8 + 8 ∧
     c7utf.strings_offset = be32v c7blob 12 + 8 ∧
     c7utf.data_offset = be32v c7blob 16 + 8 ∧
     c7utf.rows_offset ≤ c7blob.length ∧
     c7utf.strings_offset ≤ c7blob.length ∧
     c7utf.data_offset ≤ c7blob.length) :=
  ⟨rfl, c7_utf_offsets c7blob c7utf rfl⟩

/-- The entry-offset base described by the specification's words:
`add_offset` is `min(toc_offset, 0x800)` when there is no content offset,
else `content_offset` when there is no TOC offset, else the minimum of
`content_offset` and `min(toc_offset, 0x800)`. -/
def specAddOffset (tocOffset contentOffset : Nat) : Nat :=
  if contentOffset = 0xFFFFFFFFFFFFFFFF then min tocOffset 0x800
  else if tocOffset = 0xFFFFFFFFFFFFFFFF then contentOffset
  else min contentOffset (min tocOffset 0x800)

/-- The `file_offset` a TOC row receives when its `FileOffset` cell holds a
64-bit value: that value plus `add_offset` (u64 addition). -/
theorem buildTocEntry_file_offset (addOff : Nat) (u : Utf) (i v : Nat)
    (hv : getColumnData u i (ascii "FileOffset") = some (.uint64 v)) :
    (buildTocEntry addOff u i).file_offset = (v + addOff) % 2 ^ 64 := by
  unfold buildTocEntry
  rw [hv]
  repeat' split
  all_goals simp [CellValue.asU64]

/-- The i-th entry built by `read_toc` is the one built from row i. -/
theorem buildTocEntries_getD (tocOffset contentOffset : Nat) (u : Utf) (i : Nat)
    (hi : i < u.num_rows) :
    (buildTocEntries tocOffset contentOffset u).getD i FileEntry.new =
      buildTocEntry (addOffset tocOffset contentOffset) u i := by
  unfold buildTocEntries
  rw [List.getD_eq_getElem?_getD, List.getElem?_map, List.getElem?_range hi]
  rfl

/-- C3: every TOC-origin file entry's `file_offset` equals the row's 64-bit
`FileOffset` value plus `add_offset` (u64 addition), and `add_offset` is
exactly the specification's min-combination of `content_offset`,
`toc_offset` and the `0x800` floor. -/
theorem c3_toc_file_offset (tocOffset contentOffset : Nat) (u : Utf) (i v : Nat)
    (hi : i < u.num_rows)
    (hv : getColumnData u i (ascii "FileOffset") = some (.uint64 v)) :
    ((buildTocEntries tocOffset contentOffset u).getD i FileEntry.new).file_offset
      = (v + addOffset tocOffset contentOffset) % 2 ^ 64 ∧
    addOffset tocOffset contentOffset = specAddOffset tocOffset contentOffset := by
  constructor
  · rw [buildTocEntries_getD tocOffset contentOffset u i hi]
    exact buildTocEntry_file_offset (addOffset tocOffset contentOffset) u i v hv
  · unfold addOffset fTocOffset specAddOffset
    split_ifs <;> omega

/-- A one-row TOC table whose `FileOffset` cell is `UInt64 5`, for the C3
witness. -/
def c3utf : Utf :=
  ⟨0, 0, 0, 0, 0, 1, 8, 1, [⟨0x56, ascii "FileOffset"⟩],
    [[⟨CellValue.uint64 5, 40⟩]]⟩

/-- Witness for C3 at a concrete table and offsets. -/
theorem c3_witness :
    (0 : Nat) < c3utf.num_rows ∧
    ((buildTocEntries 0x800 0x1000 c3utf).getD 0 FileEntry.new).file_offset
      = (5 + addOffset 0x800 0x1000) % 2 ^ 64 ∧
    addOffset 0x800 0x1000 = specAddOffset 0x800 0x1000 :=
  ⟨by decide, c3_toc_file_offset 0x800 0x1000 c3utf 0 5 (by decide) rfl⟩

/-- A `CellValue` that is no 64-bit unsigned value has no `as_u64` view. -/
theorem asU64_eq_none (v : CellValue) (h : ∀ x, v ≠ .uint64 x) :
    v.asU64 = Option.none := by
  cases v <;> simp_all [CellValue.asU64]

/-- The `file_size` a TOC row receives from its `FileSize` cell: the
width-strict `as_u64` view, defaulted to 0. -/
theorem buildTocEntry_file_size (addOff : Nat) (u : Utf) (i : Nat) (v : CellValue)
    (hv : getColumnData u i (ascii "FileSize") = some v) :
    (buildTocEntry addOff u i).file_size = v.asU64.getD 0 := by
  unfold buildTocEntry
  rw [hv]
  repeat' split
  all_goals simp

/-- C10: a TOC row whose `FileSize` cell holds a present value of any
variant other than 64-bit unsigned produces a file entry with
`file_size = 0`, because the width-strict `as_u64` accessor returns no value
for every non-UInt64 variant. -/
theorem c10_filesize_width (tocOffset contentOffset : Nat) (u : Utf) (i : Nat)
    (v : CellValue) (hi : i < u.num_rows)
    (hv : getColumnData u i (ascii "FileSize") = some v)
    (_hpresent : v ≠ CellValue.none)
    (hnot : ∀ x, v ≠ CellValue.uint64 x) :
    v.asU64 = Option.none ∧
    ((buildTocEntries tocOffset contentOffset u).getD i FileEntry.new).file_size = 0 := by
  refine ⟨asU64_eq_none v hnot, ?_⟩
  rw [buildTocEntries_getD tocOffset contentOffset u i hi,
    buildTocEntry_file_size (addOffset tocOffset contentOffset) u i v hv,
    asU64_eq_none v hnot]
  rfl

/-- A one-row TOC table whose `FileSize` cell is the 32-bit value 7, for the
C10 witness. -/
def c10utf : Utf :=
  ⟨0, 0, 0, 0, 0, 1, 4, 1, [⟨0x54, ascii "FileSize"⟩],
    [[⟨CellValue.uint32 7, 40⟩]]⟩

/-- Witness for C10 at a concrete table: the 32-bit `FileSize` cell yields
`file_size = 0`. -/
theorem c10_witness :
    (CellValue.uint32 7).asU64 = Option.none ∧
    ((buildTocEntries 0 0 c10utf).getD 0 FileEntry.new).file_size = 0 :=
  c10_filesize_width 0 0 c10utf 0 (CellValue.uint32 7) (by decide) rfl
    (by decide) (fun x => by simp)

/-- The file size rounded up to the next multiple of `align`, exactly as
`read_itoc` computes the next base offset (no padding when already a
multiple). -/
def alignUp (size align : Nat) : Nat :=
  if 0 < size % align then size + (align - size % align) else size

theorem itocLoop_spec (align : Nat) (sizeT extractT : List (Nat × Nat)) :
    ∀ ids base entries, itocLoop align sizeT extractT ids base = .ok entries →
      entries.length = ids.length ∧
      (∀ i, i < entries.length → (entries.getD i FileEntry.new).id = some (ids.getD i 0)) ∧
      (0 < entries.length → (entries.getD 0 FileEntry.new).file_offset = base) ∧
      (∀ i, i + 1 < entries.length →
        (entries.getD (i + 1) FileEntry.new).file_offset =
          ((entries.getD i FileEntry.new).file_offset +
            alignUp (entries.getD i FileEntry.new).file_size align) % 2 ^ 64) := by
  intro ids
  induction ids with
  | nil =>
    intro base entries h
    simp only [itocLoop] at h
    cases h
    simp
  | cons id rest ih =>
    intro base entries h
    simp only [itocLoop] at h
    split at h
    · exact absurd h (by simp)
    · split at h
      · exact absurd h (by simp)
      · rename_i halign base' es hes
        cases h
        obtain ⟨ihlen, ihid, ihfirst, ihstep⟩ := ih _ _ hes
        refine ⟨by simpa using ihlen, ?_, ?_, ?_⟩
        · intro i hi
          cases i with
          | zero => rfl
          | succ j => simpa using ihid j (by simpa using hi)
        · intro _
          rfl
        · intro i hi
          cases i with
          | zero =>
            have h0 : 0 < es.length := by simpa using hi
            simp only [List.getD_cons_succ, List.getD_cons_zero]
            rw [ihfirst h0]
            unfold alignUp
            split
            · simp_all
              ring_nf
            · simp_all
          | succ j =>
            simpa using ihstep j (by simpa using hi)

theorem alignUp_rounds (s align : Nat) (h : 0 < align) :
    align ∣ alignUp s align ∧ s ≤ alignUp s align ∧ alignUp s align < s + align := by
  have hd := Nat.div_add_mod s align
  have hr : s % align < align := Nat.mod_lt _ h
  unfold alignUp
  split
  · refine ⟨⟨s / align + 1, ?_⟩, by omega, by omega⟩
    have hexp : align * (s / align + 1) = align * (s / align) + align := by ring
    omega
  · exact ⟨⟨s / align, by omega⟩, by omega, by omega⟩

theorem c4_itoc_layout (contentOffset align : Nat) (sizeT extractT : List (Nat × Nat))
    (ids : List Nat) (entries : List FileEntry)
    (h : itocEntries contentOffset align sizeT extractT ids = .ok entries) :
    (0 < entries.length → (entries.getD 0 FileEntry.new).file_offset = contentOffset) ∧
    (∀ i, i + 1 < entries.length →
      (entries.getD i FileEntry.new).id.getD 0 ≤
        (entries.getD (i + 1) FileEntry.new).id.getD 0 ∧
      (entries.getD (i + 1) FileEntry.new).file_offset =
        ((entries.getD i FileEntry.new).file_offset +
          alignUp (entries.getD i FileEntry.new).file_size align) % 2 ^ 64) ∧
    (0 < align → ∀ s, align ∣ alignUp s align ∧ s ≤ alignUp s align ∧
      alignUp s align < s + align) := by
  unfold itocEntries at h
  obtain ⟨hlen, hid, hfirst, hstep⟩ := itocLoop_spec align sizeT extractT _ _ _ h
  refine ⟨hfirst, ?_, fun ha s => alignUp_rounds s align ha⟩
  intro i hi
  refine ⟨?_, hstep i hi⟩
  have hsort := List.sorted_insertionSort (· ≤ ·) ids
  have h1 : i < (List.insertionSort (· ≤ ·) ids).length := by omega
  have h2 : i + 1 < (List.insertionSort (· ≤ ·) ids).length := by omega
  rw [hid i (by omega), hid (i + 1) (by omega)]
  simp only [Option.getD_some]
  rw [List.getD_eq_getElem?_getD, List.getD_eq_getElem?_getD,
    List.getElem?_eq_getElem h1, List.getElem?_eq_getElem h2]
  exact hsort.rel_get_of_lt (by exact Nat.lt_succ_self i)

/-- The entry list the C4 witness instance produces. -/
def c4entries : List FileEntry :=
  (itocEntries 0 4 [(1, 3), (2, 5)] [] [2, 1]).toOption.getD []

/-- Witness for C4: ids 2 and 1 with sizes 5 and 3 under alignment 4 produce
entries sorted by id at offsets 0 and 4. -/
theorem c4_witness :
    (c4entries.getD 0 FileEntry.new).file_offset = 0 ∧
    (c4entries.getD 0 FileEntry.new).id.getD 0 ≤
      (c4entries.getD 1 FileEntry.new).id.getD 0 ∧
    (c4entries.getD 1 FileEntry.new).file_offset =
      ((c4entries.getD 0 FileEntry.new).file_offset +
        alignUp (c4entries.getD 0 FileEntry.new).file_size 4) % 2 ^ 64 := by
  obtain ⟨h1, h2, _⟩ := c4_itoc_layout 0 4 [(1, 3), (2, 5)] [] [2, 1] c4entries rfl
  exact ⟨h1 (by decide), (h2 0 (by decide)).1, (h2 0 (by decide)).2⟩

/-- An input whose compressed bitstream is exhausted: 272 bytes, all zero
except the little-endian `uncompressed_size = 16` at offset 8.  The stream
(the 16 bytes before the trailing 0x100-byte header region, read backward)
only encodes 14 literal bytes before the input index drops below 0. -/
def c1input : List Nat := (List.replicate 272 0).set 8 0x10

/-- The buffer `decompress_crilayla` returns for `c1input`: 14 literals were
written backward from position 271 (the one nonzero literal lands at 265);
the remaining 2 of the 16 promised bytes were never produced. -/
def c1out : List Nat := (List.replicate 272 0).set 265 8

set_option maxRecDepth 100000 in
/-- C1 counterexample: on `c1input` the decode loop ends with the backward
input index at -1 and only 14 of 16 bytes produced, and
`decompress_crilayla` nevertheless returns success — not the fatal
compression error the claim asserts. -/
theorem c1_counterexample :
    decodeLoop c1input 16 271 17 ⟨⟨15, 0, 0⟩, 0, List.replicate 272 0⟩ =
      .ok ⟨⟨-1, 0, 2⟩, 14, c1out⟩ ∧
    (14 : Nat) < 16 ∧ ((-1 : Int) < 0) ∧
    decompress_crilayla c1input = .ok c1out :=
  ⟨rfl, by norm_num, by norm_num, rfl⟩

/-- C1 as amended: whenever the decoding loop observes a backward input
index below 0 while fewer than `uncompressed_size` bytes have been produced,
it stops and hands back the buffer produced so far as a success; no
compression error is raised at this point. -/
theorem c1_amended (input : List Nat) (size : Nat) (outputEnd : Int)
    (fuel : Nat) (st : DecSt) (hoff : st.bits.off < 0)
    (hbo : st.bytesOutput < size) :
    decodeLoop input size outputEnd (fuel + 1) st = .ok st := by
  unfold decodeLoop
  rw [if_neg (by omega), if_pos hoff]

/-- Witness for the amended C1 at a concrete exhausted state. -/
theorem c1_amended_witness :
    ((-1 : Int) < 0) ∧ ((0 : Nat) < 1) ∧
    decodeLoop [] 1 255 1 ⟨⟨-1, 0, 0⟩, 0, []⟩ = .ok ⟨⟨-1, 0, 0⟩, 0, []⟩ :=
  ⟨by norm_num, by norm_num,
    c1_amended [] 1 255 0 ⟨⟨-1, 0, 0⟩, 0, []⟩ (by norm_num) (by norm_num)⟩

/-- An input whose only token is a back-reference with offset 0 at the very
start of decoding: 274 bytes, `uncompressed_size = 3` at offset 8 and the
stream byte `0x80` at index 17 (control bit 1, then 13 zero offset bits and
a zero 2-bit length field).  The back-reference source position
`258 - 0 + 0 + 3 = 261` lies outside the 259-byte output buffer. -/
def c2input : List Nat := ((List.replicate 274 0).set 8 3).set 17 0x80

/-- The output buffer of `decompress_crilayla` on `c2input` just after the
plaintext header copy (byte `0x80` of the stream region is inside the copied
header slice). -/
def c2buf0 : List Nat := (c2input.drop 16).take 256 ++ List.replicate 3 0

/-- What `decompress_crilayla` returns for `c2input`: the three
out-of-buffer back-reference reads each produced a zero byte. -/
def c2out : List Nat := (List.replicate 259 0).set 1 0x80

set_option maxRecDepth 100000 in
/-- C2 counterexample: decoding `c2input` runs the copy loop with source
position 261 outside the 259-byte buffer, yet the copy loop and
`decompress_crilayla` both succeed — not the fatal compression error the
claim asserts. -/
theorem c2_counterexample :
    decompress_crilayla c2input = .ok c2out ∧
    copyLoop 3 258 3 261 0 c2buf0 = .ok (3, c2out) ∧
    ((c2buf0.length : Int) ≤ 261) :=
  ⟨rfl, rfl, by decide⟩

/-- C2 as amended: a back-reference source position outside the output
buffer makes the copy loop write a zero byte and continue; no error is
returned for it. -/
theorem c2_amended (size : Nat) (outputEnd : Int) (n : Nat) (back : Int)
    (bo : Nat) (buf : List Nat) (hbo : bo < size)
    (hop : ¬(outputEnd - (bo : Int) < 0 ∨ (buf.length : Int) ≤ outputEnd - (bo : Int)))
    (hback : back < 0 ∨ (buf.length : Int) ≤ back) :
    copyLoop size outputEnd (n + 1) back bo buf =
      copyLoop size outputEnd n (back - 1) (bo + 1)
        (buf.set (outputEnd - (bo : Int)).toNat 0) := by
  conv_lhs => unfold copyLoop
  rw [if_neg (by omega), if_neg hop, if_pos hback]

/-- Witness for the amended C2 at a concrete out-of-buffer source
position. -/
theorem c2_amended_witness :
    ((0 : Nat) < 1) ∧
    copyLoop 1 0 1 5 0 [9] =
      copyLoop 1 0 0 (5 - 1) (0 + 1) (([9] : List Nat).set ((0 : Int) - ((0 : Nat) : Int)).toNat 0) :=
  ⟨by norm_num, c2_amended 1 0 0 5 0 [9] (by norm_num) (by decide) (by decide)⟩

/-- The copy loop never changes the buffer length and, when `outputEnd` is
the decompressor's `0x100 + uncompressed_size - 1`, never touches the first
0x100 bytes (every write lands at position `outputEnd - bytes_output` with
`bytes_output < size`). -/
theorem copyLoop_inv (size : Nat) (outputEnd : Int)
    (houtEnd : outputEnd = 256 + (size : Int) - 1) :
    ∀ cnt back bo buf res, copyLoop size outputEnd cnt back bo buf = .ok res →
      res.2.length = buf.length ∧ res.2.take 256 = buf.take 256 := by
  intro cnt
  induction cnt with
  | zero =>
    intro back bo buf res h
    cases h
    exact ⟨rfl, rfl⟩
  | succ n ih =>
    intro back bo buf res h
    simp only [copyLoop] at h
    split at h
    · cases h
      exact ⟨rfl, rfl⟩
    · split at h
      · exact absurd h (by simp)
      · obtain ⟨ih1, ih2⟩ := ih _ _ _ _ h
        refine ⟨by rw [ih1, List.length_set], ?_⟩
        rw [ih2]
        apply take_set_of_ge
        rename_i hbo hop
        omega

theorem decodeLoop_inv (input : List Nat) (size : Nat) (outputEnd : Int)
    (houtEnd : outputEnd = 256 + (size : Int) - 1) :
    ∀ fuel st st', decodeLoop input size outputEnd fuel st = .ok st' →
      st'.buf.length = st.buf.length ∧ st'.buf.take 256 = st.buf.take 256 := by
  intro fuel
  induction fuel with
  | zero =>
    intro st st' h
    exact absurd h (by simp [decodeLoop])
  | succ fuel ih =>
    intro st st' h
    simp only [decodeLoop] at h
    split at h
    · cases h
      exact ⟨rfl, rfl⟩
    · split at h
      · cases h
        exact ⟨rfl, rfl⟩
      · split at h
        · cases h
          exact ⟨rfl, rfl⟩
        · split at h
          · split at h
            · cases h
              exact ⟨rfl, rfl⟩
            · split at h
              · exact absurd h (by simp)
              · split at h
                · exact absurd h (by simp)
                · split at h
                  · exact absurd h (by simp)
                  · rename_i hcopy
                    obtain ⟨l1, t1⟩ := ih _ _ h
                    obtain ⟨l2, t2⟩ :=
                      copyLoop_inv size outputEnd houtEnd _ _ _ _ _ hcopy
                    exact ⟨by rw [l1]; exact l2, by rw [t1]; exact t2⟩
          · split at h
            · exact absurd h (by simp)
            · split at h
              · exact absurd h (by simp)
              · obtain ⟨l1, t1⟩ := ih _ _ h
                refine ⟨by rw [l1, List.length_set], ?_⟩
                rw [t1]
                apply take_set_of_ge
                rename_i hbo hoff hctrl hbyte hoob
                omega

/-- C6: for every input on which `decompress_crilayla` succeeds, the buffer
has length `0x100 + uncompressed_size` (the little-endian 32-bit value at
bytes 8..12) and its first 0x100 bytes are the plaintext header slice
`input[uncompressed_header_offset + 0x10 ..][..0x100]`. -/
theorem c6_output_shape (input out : List Nat)
    (h : decompress_crilayla input = .ok out) :
    out.length = 0x100 + le32v input 8 ∧
    out.take 0x100 = (input.drop (le32v input 12 + 0x10)).take 0x100 := by
  unfold decompress_crilayla at h
  simp only [] at h
  repeat' split at h
  all_goals try (exact Except.noConfusion h)
  rename_i hlen hhdr hsize hoff hshort x st hdec
  obtain ⟨l1, t1⟩ := decodeLoop_inv input (le32v input 8)
    (256 + ((le32v input 8 : Nat) : Int) - 1) rfl _ _ _ hdec
  cases h
  constructor
  · rw [l1]
    simp only [List.length_append, List.length_take,
      List.length_drop, List.length_replicate]
    omega
  · rw [t1]
    have hl : ((input.drop (le32v input 12 + 0x10)).take 0x100).length = 0x100 := by
      simp only [List.length_take, List.length_drop]
      omega
    rw [List.take_append_eq_append_take, List.take_of_length_le (by omega), hl]
    simp

/-- A well-formed CRILAYLA blob for the C6 witness: 272 bytes, all zero
except `uncompressed_size = 2`; the stream encodes two zero literals. -/
def c6input : List Nat := (List.replicate 272 0).set 8 2

/-- The output `decompress_crilayla` produces for `c6input`. -/
def c6out : List Nat := List.replicate 258 0

set_option maxRecDepth 100000 in
/-- Witness for C6 at the concrete blob. -/
theorem c6_witness :
    decompress_crilayla c6input = .ok c6out ∧
    c6out.length = 0x100 + le32v c6input 8 ∧
    c6out.take 0x100 = (c6input.drop (le32v c6input 12 + 0x10)).take 0x100 :=
  ⟨rfl, c6_output_shape c6input c6out rfl⟩

/-- The `CPK_HDR` pseudo-entry `read_cpk` appends: named `CPK_HDR`, placed at
file offset 20 (position after the signature plus the 16-byte framing), sized
by the header packet. -/
def cpkHdrEntry (packet : List Nat) (enc : Bool) : FileEntry :=
  { FileEntry.new with
    file_name := ascii "CPK_HDR", file_offset := 4 + 16,
    file_size := packet.length, encrypted := enc,
    file_type := ascii "CPK", toc_name := ascii "CPK" }

/-- C9: a well-formed CPK whose header parses, whose four sub-table offsets
all read as the absent sentinel and whose computed `ContentOffset` is 0 makes
`read_cpk` succeed with a file table holding exactly the `CPK_HDR`
pseudo-entry. -/
theorem c9_minimal_cpk (file packet : List Nat) (enc : Bool) (pos : Nat) (u : Utf)
    (hsig : readBytesSlice file 0 4 = .ok (ascii "CPK "))
    (hutf : readUtfData file 4 = .ok (packet, enc, pos))
    (hparse : readUtf packet = .ok u)
    (htoc : getColumnDataOrDefault u 0 (ascii "TocOffset") 3 = .uint64 0xFFFFFFFFFFFFFFFF)
    (hetoc : getColumnDataOrDefault u 0 (ascii "EtocOffset") 3 = .uint64 0xFFFFFFFFFFFFFFFF)
    (hitoc : getColumnDataOrDefault u 0 (ascii "ItocOffset") 3 = .uint64 0xFFFFFFFFFFFFFFFF)
    (hgtoc : getColumnDataOrDefault u 0 (ascii "GtocOffset") 3 = .uint64 0xFFFFFFFFFFFFFFFF)
    (hcontent : ((getColumnDataOrDefault u 0 (ascii "ContentOffset") 3).asU64).getD 0 = 0) :
    readCpk file = .ok ⟨[cpkHdrEntry packet enc], buildCpkData u,
      0xFFFFFFFFFFFFFFFF, 0xFFFFFFFFFFFFFFFF, 0xFFFFFFFFFFFFFFFF,
      0xFFFFFFFFFFFFFFFF, 0⟩ := by
  unfold readCpk
  rw [hsig]
  unfold CellValue.asU64 at hcontent
  simp only [hutf, hparse, htoc, hetoc, hitoc, hgtoc, CellValue.asU64]
  simp [cpkHdrEntry, hcontent]

/-- The header @UTF blob of the minimal CPK witness: a single per-row 64-bit
`ContentOffset` column with value 0 in the single row. -/
def c9utfBlob : List Nat :=
  [0x40, 0x55, 0x54, 0x46, 0, 0, 0, 51, 0, 0, 0, 29, 0, 0, 0, 37,
   0, 0, 0, 51, 0, 0, 0, 0, 0, 1, 0, 8, 0, 0, 0, 1,
   0x56, 0, 0, 0, 0, 0, 0, 0, 0, 0, 0, 0, 0] ++
  ascii "ContentOffset" ++ [0]

/-- The minimal CPK archive file: `CPK ` signature, 16-byte framing with
little-endian blob size 59, then the header blob. -/
def c9file : List Nat :=
  ascii "CPK " ++ [0xFF, 0xFF, 0xFF, 0xFF, 59, 0, 0, 0, 0, 0, 0, 0] ++ c9utfBlob

/-- The parsed header table of the minimal CPK witness. -/
def c9utf : Utf :=
  ⟨51, 37, 45, 59, 0, 1, 8, 1, [⟨0x56, ascii "ContentOffset"⟩], [[⟨.uint64 0, 37⟩]]⟩

/-- Witness for C9 at the concrete minimal archive. -/
theorem c9_witness :
    readCpk c9file = .ok ⟨[cpkHdrEntry c9utfBlob false], buildCpkData c9utf,
      0xFFFFFFFFFFFFFFFF, 0xFFFFFFFFFFFFFFFF, 0xFFFFFFFFFFFFFFFF,
      0xFFFFFFFFFFFFFFFF, 0⟩ :=
  c9_minimal_cpk c9file c9utfBlob false 75 c9utf rfl rfl rfl rfl rfl rfl rfl rfl
